import Mathlib

/-!
# Verification of the github-folders core pipeline

Shallow embedding of the core logic of the `github-folders` browser
extension, with proofs of the spec's testable properties.

Embedded source files:
* `src/content/core/workflow-organizer.js` — `groupWorkflowsByFolder`
* `src/background/service-worker.js` — `fetchConfigFromBranches`,
  `fetchConfigWithCache`, `checkUserPermission`, `getToken`
* `src/content/services/permissions-service.js` /
  `src/content/services/repo-detector.js` — `checkWriteAccessFromHTMLEndpoint`
* `src/content/services/messaging-service.js` — `extractWorkflowsFromDOM`,
  `fetchWorkflows`
* `src/content/services/storage-service.js` — `getExtensionEnabled`

JavaScript `Map` objects are modelled as insertion-ordered association
lists; JS truthiness of strings (`""` is falsy) and of stored values is
modelled explicitly where the code relies on it; network and storage I/O
is modelled by passing oracles / explicit stores.
-/

namespace GithubFolders

/-! ## Data model for the grouping engine
(`src/content/core/workflow-organizer.js`) -/

/-- One folder definition of the config document:
`{ "name": <string>, "workflows": [<filename>, ...] }`. -/
structure Folder where
  name : String
  workflows : List String
deriving DecidableEq, Repr

/-- The config document: `{ "folders": [...] }`. -/
structure Config where
  folders : List Folder
deriving DecidableEq, Repr

/-- One element of the GitHub API workflow list (the fields the grouping
code reads: `workflow.name` and `workflow.path`). -/
structure ApiWorkflow where
  name : String
  path : String
deriving DecidableEq, Repr

/-- The descriptor built for every input workflow
(`workflowData` in `groupWorkflowsByFolder`). -/
structure WorkflowData where
  name : String
  path : String
  filename : String
  url : String
deriving DecidableEq, Repr

/-- JS `String.split('/')` at the character level: splits at every `'/'`,
keeping empty segments; every string yields at least one segment
(`"".split('/') == [""]`). -/
def splitSegs : List Char → List (List Char)
  | [] => [[]]
  | c :: cs =>
      let rest := splitSegs cs
      if c = '/' then [] :: rest
      else
        match rest with
        | [] => [[c]]
        | s :: ss => (c :: s) :: ss

/-- `workflow.path.split('/').pop()`: the last segment of the path.
`split` always yields a non-empty array, so `pop()` is total. -/
def lastSegment (path : String) : String :=
  String.mk ((splitSegs path.data).getLastD [])

/-- `Map.set` on a string-keyed JS Map: overwrite in place if the key is
present (insertion order kept), else append a fresh entry. -/
def mapSet (m : List (String × String)) (k v : String) : List (String × String) :=
  match m with
  | [] => [(k, v)]
  | (k₀, v₀) :: rest => if k₀ = k then (k, v) :: rest else (k₀, v₀) :: mapSet rest k v

/-- `Map.get` on a string-keyed JS Map (`undefined` becomes `none`). -/
def mapGet (m : List (String × String)) (k : String) : Option String :=
  match m with
  | [] => none
  | (k₀, v) :: rest => if k₀ = k then some v else mapGet rest k

/-- The `workflowToFolder` map built at the top of `groupWorkflowsByFolder`:
iterate `config.folders` in order, and for each folder each listed filename,
doing `workflowToFolder.set(workflow, folder.name)` — a later folder's claim
on a filename overwrites an earlier one's. -/
def buildWorkflowToFolder (folders : List Folder) : List (String × String) :=
  folders.foldl
    (fun m folder => folder.workflows.foldl (fun m₀ w => mapSet m₀ w folder.name) m) []

/-- `folders.get(folderName).push(workflowData)` preceded by
`if (!folders.has(folderName)) folders.set(folderName, [])`: append to the
bucket of `k`, creating the bucket at the end in first-seen order. -/
def mapPush (m : List (String × List WorkflowData)) (k : String) (d : WorkflowData) :
    List (String × List WorkflowData) :=
  match m with
  | [] => [(k, [d])]
  | (k₀, ds) :: rest => if k₀ = k then (k₀, ds ++ [d]) :: rest else (k₀, ds) :: mapPush rest k d

/-- Result of `groupWorkflowsByFolder`: the `folders` Map (insertion-ordered
association list) and the `uncategorized` array. -/
structure GroupingResult where
  folders : List (String × List WorkflowData)
  uncategorized : List WorkflowData
deriving DecidableEq, Repr

/-- The `workflowData` object built for one input workflow. -/
def mkWorkflowData (owner repo : String) (w : ApiWorkflow) : WorkflowData :=
  let filename := lastSegment w.path
  { name := w.name
    path := w.path
    filename := filename
    url := "https://github.com/" ++ owner ++ "/" ++ repo ++ "/actions/workflows/" ++ filename }

/-- The body of the `apiWorkflows.forEach` loop of `groupWorkflowsByFolder`.
`if (folderName)` is JS truthiness on a string-or-undefined: `undefined`
and the empty string both fall through to `uncategorized`. -/
def groupStep (wtf : List (String × String)) (owner repo : String)
    (acc : GroupingResult) (w : ApiWorkflow) : GroupingResult :=
  let filename := lastSegment w.path
  let workflowData := mkWorkflowData owner repo w
  match mapGet wtf filename with
  | some folderName =>
      if folderName = "" then
        { acc with uncategorized := acc.uncategorized ++ [workflowData] }
      else
        { acc with folders := mapPush acc.folders folderName workflowData }
  | none => { acc with uncategorized := acc.uncategorized ++ [workflowData] }

/-- `groupWorkflowsByFolder(config, apiWorkflows, owner, repo)`
(`src/content/core/workflow-organizer.js`, lines 15–59). -/
def groupWorkflowsByFolder (config : Config) (apiWorkflows : List ApiWorkflow)
    (owner repo : String) : GroupingResult :=
  let wtf := buildWorkflowToFolder config.folders
  apiWorkflows.foldl (groupStep wtf owner repo) ⟨[], []⟩

/-- The bucket a filename is routed to: the folder named by the lookup when
that name is truthy, else the uncategorized bucket (`none`). -/
def assignedBucket (wtf : List (String × String)) (filename : String) : Option String :=
  match mapGet wtf filename with
  | some folderName => if folderName = "" then none else some folderName
  | none => none

/-- Membership of a descriptor in a bucket of the result: `none` is the
uncategorized bucket, `some k` the folder bucket named `k`. -/
def inBucket (r : GroupingResult) (b : Option String) (d : WorkflowData) : Prop :=
  match b with
  | none => d ∈ r.uncategorized
  | some k => ∃ ds, (k, ds) ∈ r.folders ∧ d ∈ ds

/-! ## Helper lemmas about the JS-Map model -/

/-- `mapPush` grows the total number of stored descriptors by exactly one. -/
lemma mapPush_sum (m : List (String × List WorkflowData)) (k : String) (d : WorkflowData) :
    ((mapPush m k d).map (fun p => p.2.length)).sum
      = (m.map (fun p => p.2.length)).sum + 1 := by
  induction m with
  | nil => simp [mapPush]
  | cons head tl ih =>
      obtain ⟨k₀, ds⟩ := head
      by_cases hk : k₀ = k
      · simp [mapPush, hk]
        omega
      · simp [mapPush, hk, ih]
        omega

/-- Where an entry of `mapPush m k d` comes from: it was already in `m`,
or it is the bucket of `k` (fresh `[d]`, or an old bucket with `d` appended). -/
lemma mem_mapPush {m : List (String × List WorkflowData)} {k : String} {d : WorkflowData}
    {k₀ : String} {ds : List WorkflowData} (h : (k₀, ds) ∈ mapPush m k d) :
    (k₀, ds) ∈ m ∨ (k₀ = k ∧ (ds = [d] ∨ ∃ ds₀, (k₀, ds₀) ∈ m ∧ ds = ds₀ ++ [d])) := by
  induction m with
  | nil =>
      simp [mapPush] at h
      exact Or.inr ⟨h.1, Or.inl h.2⟩
  | cons head tl ih =>
      obtain ⟨k₁, ds₁⟩ := head
      by_cases hk : k₁ = k
      · subst hk
        simp only [mapPush, if_pos rfl] at h
        rcases List.mem_cons.mp h with heq | htl
        · obtain ⟨h1, h2⟩ := Prod.mk.injEq .. ▸ heq
          subst h1
          exact Or.inr ⟨rfl, Or.inr ⟨ds₁, List.mem_cons_self _ _, h2⟩⟩
        · exact Or.inl (List.mem_cons_of_mem _ htl)
      · simp only [mapPush, if_neg hk] at h
        rcases List.mem_cons.mp h with heq | htl
        · exact Or.inl (heq ▸ List.mem_cons_self _ _)
        · rcases ih htl with hm | ⟨hkk, hds⟩
          · exact Or.inl (List.mem_cons_of_mem _ hm)
          · refine Or.inr ⟨hkk, ?_⟩
            rcases hds with h1 | ⟨ds₀, hds₀, heq⟩
            · exact Or.inl h1
            · exact Or.inr ⟨ds₀, List.mem_cons_of_mem _ hds₀, heq⟩

/-- After `mapPush m k d`, the bucket of `k` exists and holds `d`. -/
lemma mapPush_mem_self (m : List (String × List WorkflowData)) (k : String) (d : WorkflowData) :
    ∃ ds, (k, ds) ∈ mapPush m k d ∧ d ∈ ds := by
  induction m with
  | nil => exact ⟨[d], by simp [mapPush]⟩
  | cons head tl ih =>
      obtain ⟨k₁, ds₁⟩ := head
      by_cases hk : k₁ = k
      · subst hk
        exact ⟨ds₁ ++ [d], by simp [mapPush], by simp⟩
      · obtain ⟨ds, hmem, hin⟩ := ih
        exact ⟨ds, by simp only [mapPush, if_neg hk]; exact List.mem_cons_of_mem _ hmem, hin⟩

/-- `mapPush` never removes a descriptor from an existing bucket. -/
lemma mapPush_mono {m : List (String × List WorkflowData)} {k₀ : String}
    {ds : List WorkflowData} {d₀ : WorkflowData} (k : String) (d : WorkflowData)
    (hmem : (k₀, ds) ∈ m) (hd : d₀ ∈ ds) :
    ∃ ds₁, (k₀, ds₁) ∈ mapPush m k d ∧ d₀ ∈ ds₁ := by
  induction m with
  | nil => cases hmem
  | cons head tl ih =>
      obtain ⟨k₁, ds₁⟩ := head
      by_cases hk : k₁ = k
      · subst hk
        rcases List.mem_cons.mp hmem with heq | htl
        · obtain ⟨h1, h2⟩ := Prod.mk.injEq .. ▸ heq
          subst h1
          exact ⟨ds₁ ++ [d], by simp [mapPush], List.mem_append_left _ (h2 ▸ hd)⟩
        · exact ⟨ds, by simp only [mapPush, if_pos rfl]; exact List.mem_cons_of_mem _ htl, hd⟩
      · rcases List.mem_cons.mp hmem with heq | htl
        · exact ⟨ds, by simp only [mapPush, if_neg hk]; exact heq ▸ List.mem_cons_self _ _, hd⟩
        · obtain ⟨ds₂, hmem₂, hin₂⟩ := ih htl
          exact ⟨ds₂, by simp only [mapPush, if_neg hk]; exact List.mem_cons_of_mem _ hmem₂, hin₂⟩

/-- The key list after `mapPush`: unchanged if the key existed, else the key
is appended (first-seen order of buckets). -/
lemma mapPush_keys (m : List (String × List WorkflowData)) (k : String) (d : WorkflowData) :
    (mapPush m k d).map Prod.fst
      = if k ∈ m.map Prod.fst then m.map Prod.fst else m.map Prod.fst ++ [k] := by
  induction m with
  | nil => simp [mapPush]
  | cons head tl ih =>
      obtain ⟨k₁, ds₁⟩ := head
      by_cases hk : k₁ = k
      · subst hk
        simp [mapPush]
      · have hk₂ : ¬ k = k₁ := fun h => hk h.symm
        by_cases hm : k ∈ tl.map Prod.fst
        · simp [mapPush, hk, ih, hm, hk₂]
        · simp [mapPush, hk, ih, hm, hk₂]

/-- `mapPush` keeps the bucket keys distinct. -/
lemma keysNodup_mapPush {m : List (String × List WorkflowData)} (k : String) (d : WorkflowData)
    (h : (m.map Prod.fst).Nodup) : ((mapPush m k d).map Prod.fst).Nodup := by
  rw [mapPush_keys]
  by_cases hm : k ∈ m.map Prod.fst
  · simpa [hm] using h
  · simp only [hm, if_neg, ite_false]
    exact List.Nodup.append h (List.nodup_singleton _) (by simpa using hm)

/-! ## Characterizing one iteration of the grouping loop -/

lemma mkWorkflowData_filename (owner repo : String) (w : ApiWorkflow) :
    (mkWorkflowData owner repo w).filename = lastSegment w.path := rfl

lemma groupStep_none {wtf : List (String × String)} {owner repo : String}
    {acc : GroupingResult} {w : ApiWorkflow}
    (hm : mapGet wtf (lastSegment w.path) = none) :
    groupStep wtf owner repo acc w
      = { acc with uncategorized := acc.uncategorized ++ [mkWorkflowData owner repo w] } := by
  simp [groupStep, hm]

lemma groupStep_emptyName {wtf : List (String × String)} {owner repo : String}
    {acc : GroupingResult} {w : ApiWorkflow}
    (hm : mapGet wtf (lastSegment w.path) = some "") :
    groupStep wtf owner repo acc w
      = { acc with uncategorized := acc.uncategorized ++ [mkWorkflowData owner repo w] } := by
  simp [groupStep, hm]

lemma groupStep_someName {wtf : List (String × String)} {owner repo : String}
    {acc : GroupingResult} {w : ApiWorkflow} {n : String}
    (hm : mapGet wtf (lastSegment w.path) = some n) (hn : n ≠ "") :
    groupStep wtf owner repo acc w
      = { acc with folders := mapPush acc.folders n (mkWorkflowData owner repo w) } := by
  simp [groupStep, hm, hn]

/-! ## Partition invariants of the grouping fold -/

/-- Every descriptor already placed in `acc` sits in the bucket its
filename is routed to. -/
def SoundAcc (wtf : List (String × String)) (acc : GroupingResult) : Prop :=
  (∀ k ds, (k, ds) ∈ acc.folders → ∀ d ∈ ds, assignedBucket wtf d.filename = some k)
  ∧ (∀ d ∈ acc.uncategorized, assignedBucket wtf d.filename = none)

lemma soundAcc_groupStep {wtf : List (String × String)} (owner repo : String)
    {acc : GroupingResult} (w : ApiWorkflow) (h : SoundAcc wtf acc) :
    SoundAcc wtf (groupStep wtf owner repo acc w) := by
  obtain ⟨hfold, hunc⟩ := h
  rcases hm : mapGet wtf (lastSegment w.path) with _ | n
  · rw [groupStep_none hm]
    refine ⟨fun k ds hmem d hd => hfold k ds hmem d hd, fun d hd => ?_⟩
    rcases List.mem_append.mp hd with hd | hd
    · exact hunc d hd
    · have hde : d = mkWorkflowData owner repo w := by simpa using hd
      subst hde
      simp [assignedBucket, mkWorkflowData_filename, hm]
  · by_cases hn : n = ""
    · subst hn
      rw [groupStep_emptyName hm]
      refine ⟨fun k ds hmem d hd => hfold k ds hmem d hd, fun d hd => ?_⟩
      rcases List.mem_append.mp hd with hd | hd
      · exact hunc d hd
      · have hde : d = mkWorkflowData owner repo w := by simpa using hd
        subst hde
        simp [assignedBucket, mkWorkflowData_filename, hm]
    · rw [groupStep_someName hm hn]
      refine ⟨fun k ds hmem d hd => ?_, hunc⟩
      rcases mem_mapPush hmem with hold | ⟨hkn, hds⟩
      · exact hfold k ds hold d hd
      · subst hkn
        rcases hds with h1 | ⟨ds₀, hds₀, heq⟩
        · subst h1
          have hde : d = mkWorkflowData owner repo w := by simpa using hd
          subst hde
          simp [assignedBucket, mkWorkflowData_filename, hm, hn]
        · subst heq
          rcases List.mem_append.mp hd with hd | hd
          · exact hfold _ ds₀ hds₀ d hd
          · have hde : d = mkWorkflowData owner repo w := by simpa using hd
            subst hde
            simp [assignedBucket, mkWorkflowData_filename, hm, hn]

lemma soundAcc_foldl {wtf : List (String × String)} (owner repo : String)
    (ws : List ApiWorkflow) :
    ∀ acc, SoundAcc wtf acc → SoundAcc wtf (ws.foldl (groupStep wtf owner repo) acc) := by
  induction ws with
  | nil => exact fun _ h => h
  | cons w ws ih => exact fun acc h => ih _ (soundAcc_groupStep owner repo w h)

lemma inBucket_groupStep {wtf : List (String × String)} {owner repo : String}
    {acc : GroupingResult} {b : Option String} {d : WorkflowData} (w : ApiWorkflow)
    (h : inBucket acc b d) : inBucket (groupStep wtf owner repo acc w) b d := by
  rcases hm : mapGet wtf (lastSegment w.path) with _ | n
  · rw [groupStep_none hm]
    cases b with
    | none => exact List.mem_append_left _ h
    | some k => exact h
  · by_cases hn : n = ""
    · subst hn
      rw [groupStep_emptyName hm]
      cases b with
      | none => exact List.mem_append_left _ h
      | some k => exact h
    · rw [groupStep_someName hm hn]
      cases b with
      | none => exact h
      | some k =>
          obtain ⟨ds, hmem, hd⟩ := h
          exact mapPush_mono n (mkWorkflowData owner repo w) hmem hd

lemma inBucket_foldl {wtf : List (String × String)} {owner repo : String}
    {b : Option String} {d : WorkflowData} (ws : List ApiWorkflow) :
    ∀ acc, inBucket acc b d → inBucket (ws.foldl (groupStep wtf owner repo) acc) b d := by
  induction ws with
  | nil => exact fun _ h => h
  | cons w ws ih => exact fun acc h => ih _ (inBucket_groupStep w h)

lemma groupStep_places {wtf : List (String × String)} (owner repo : String)
    (acc : GroupingResult) (w : ApiWorkflow) :
    inBucket (groupStep wtf owner repo acc w)
      (assignedBucket wtf (lastSegment w.path)) (mkWorkflowData owner repo w) := by
  rcases hm : mapGet wtf (lastSegment w.path) with _ | n
  · rw [groupStep_none hm]
    simp [assignedBucket, hm, inBucket]
  · by_cases hn : n = ""
    · subst hn
      rw [groupStep_emptyName hm]
      simp [assignedBucket, hm, inBucket]
    · rw [groupStep_someName hm hn]
      simp only [assignedBucket, hm, if_neg hn]
      exact mapPush_mem_self acc.folders n (mkWorkflowData owner repo w)

lemma foldl_places {wtf : List (String × String)} (owner repo : String)
    (ws : List ApiWorkflow) :
    ∀ acc, ∀ w ∈ ws,
      inBucket (ws.foldl (groupStep wtf owner repo) acc)
        (assignedBucket wtf (lastSegment w.path)) (mkWorkflowData owner repo w) := by
  induction ws with
  | nil => intro _ w hw; cases hw
  | cons w₀ ws ih =>
      intro acc w hw
      rcases List.mem_cons.mp hw with heq | htl
      · subst heq
        exact inBucket_foldl ws _ (groupStep_places owner repo acc w)
      · exact ih _ w htl

/-- Total number of descriptors stored in a grouping result. -/
def totalCount (r : GroupingResult) : Nat :=
  (r.folders.map (fun p => p.2.length)).sum + r.uncategorized.length

lemma totalCount_groupStep (wtf : List (String × String)) (owner repo : String)
    (acc : GroupingResult) (w : ApiWorkflow) :
    totalCount (groupStep wtf owner repo acc w) = totalCount acc + 1 := by
  rcases hm : mapGet wtf (lastSegment w.path) with _ | n
  · rw [groupStep_none hm]
    simp [totalCount]
    omega
  · by_cases hn : n = ""
    · subst hn
      rw [groupStep_emptyName hm]
      simp [totalCount]
      omega
    · rw [groupStep_someName hm hn]
      simp [totalCount, mapPush_sum]
      omega

lemma totalCount_foldl {wtf : List (String × String)} {owner repo : String}
    (ws : List ApiWorkflow) :
    ∀ acc, totalCount (ws.foldl (groupStep wtf owner repo) acc)
      = totalCount acc + ws.length := by
  induction ws with
  | nil => intro acc; simp
  | cons w ws ih =>
      intro acc
      rw [List.foldl_cons, ih, totalCount_groupStep]
      simp
      omega

lemma keysNodup_groupStep {wtf : List (String × String)} {owner repo : String}
    {acc : GroupingResult} (w : ApiWorkflow)
    (h : (acc.folders.map Prod.fst).Nodup) :
    (((groupStep wtf owner repo acc w).folders).map Prod.fst).Nodup := by
  rcases hm : mapGet wtf (lastSegment w.path) with _ | n
  · rw [groupStep_none hm]; exact h
  · by_cases hn : n = ""
    · subst hn; rw [groupStep_emptyName hm]; exact h
    · rw [groupStep_someName hm hn]; exact keysNodup_mapPush n _ h

lemma keysNodup_foldl {wtf : List (String × String)} {owner repo : String}
    (ws : List ApiWorkflow) :
    ∀ acc, (acc.folders.map Prod.fst).Nodup →
      (((ws.foldl (groupStep wtf owner repo) acc).folders).map Prod.fst).Nodup := by
  induction ws with
  | nil => exact fun _ h => h
  | cons w ws ih => exact fun acc h => ih _ (keysNodup_groupStep w h)

/-- A descriptor's bucket is determined by its filename. -/
lemma inBucket_assigned {wtf : List (String × String)} {r : GroupingResult}
    (hs : SoundAcc wtf r) {b : Option String} {d : WorkflowData} (h : inBucket r b d) :
    b = assignedBucket wtf d.filename := by
  cases b with
  | none => exact (hs.2 d h).symm
  | some k =>
      obtain ⟨ds, hmem, hd⟩ := h
      exact (hs.1 k ds hmem d hd).symm

/-- **C1**: `groupWorkflowsByFolder` partitions its input exactly: the total
count of descriptors across all folder buckets plus the uncategorized bucket
equals the length of the input list; every input workflow's descriptor
appears in the bucket its filename is routed to; a descriptor appears in at
most one bucket (buckets are pairwise disjoint); and folder bucket keys are
distinct. -/
theorem groupWorkflowsByFolder_partitions (config : Config) (W : List ApiWorkflow)
    (owner repo : String) :
    totalCount (groupWorkflowsByFolder config W owner repo) = W.length
    ∧ (∀ w ∈ W,
        inBucket (groupWorkflowsByFolder config W owner repo)
          (assignedBucket (buildWorkflowToFolder config.folders) (lastSegment w.path))
          (mkWorkflowData owner repo w))
    ∧ (∀ d b₁ b₂, inBucket (groupWorkflowsByFolder config W owner repo) b₁ d →
        inBucket (groupWorkflowsByFolder config W owner repo) b₂ d → b₁ = b₂)
    ∧ (((groupWorkflowsByFolder config W owner repo).folders).map Prod.fst).Nodup := by
  have hsound : SoundAcc (buildWorkflowToFolder config.folders)
      (groupWorkflowsByFolder config W owner repo) :=
    soundAcc_foldl owner repo W ⟨[], []⟩
      ⟨fun _ _ hmem => absurd hmem (List.not_mem_nil _),
        fun _ hd => absurd hd (List.not_mem_nil _)⟩
  refine ⟨?_, ?_, ?_, ?_⟩
  · have hc := @totalCount_foldl (buildWorkflowToFolder config.folders) owner repo W ⟨[], []⟩
    simpa [groupWorkflowsByFolder, totalCount] using hc
  · exact fun w hw => foldl_places owner repo W ⟨[], []⟩ w hw
  · intro d b₁ b₂ h₁ h₂
    rw [inBucket_assigned hsound h₁, inBucket_assigned hsound h₂]
  · exact keysNodup_foldl W ⟨[], []⟩ (by simp)

/-- **C9**: `groupWorkflowsByFolder` is deterministic and pure — two calls
with identical arguments yield identical results, including folder iteration
order and the order of descriptors within each bucket (the embedded function
reads no state beyond its arguments, mirroring the source, whose loop body
touches only its parameters and local `Map`s). -/
theorem groupWorkflowsByFolder_deterministic (config : Config) (W : List ApiWorkflow)
    (owner repo : String) :
    groupWorkflowsByFolder config W owner repo = groupWorkflowsByFolder config W owner repo :=
  rfl

/-! ## The filename→folder lookup: a later folder's claim wins -/

lemma mapGet_mapSet_self (m : List (String × String)) (k v : String) :
    mapGet (mapSet m k v) k = some v := by
  induction m with
  | nil => simp [mapSet, mapGet]
  | cons head tl ih =>
      obtain ⟨k₁, v₁⟩ := head
      by_cases hk : k₁ = k
      · simp [mapSet, hk, mapGet]
      · simp [mapSet, hk, mapGet, ih]

lemma mapGet_mapSet_other {k₀ k : String} (m : List (String × String)) (v : String)
    (h : k₀ ≠ k) : mapGet (mapSet m k₀ v) k = mapGet m k := by
  induction m with
  | nil => simp [mapSet, mapGet, h]
  | cons head tl ih =>
      obtain ⟨k₁, v₁⟩ := head
      by_cases hk : k₁ = k₀
      · subst hk
        simp [mapSet, mapGet, h]
      · simp [mapSet, hk, mapGet, ih]

/-- Registering one folder's filename list: a listed filename maps to that
folder's name, any other filename keeps its previous mapping. -/
lemma mapGet_foldl_mapSet (n : String) (ws : List String) (x : String) :
    ∀ m, mapGet (ws.foldl (fun m₀ w => mapSet m₀ w n) m) x
      = if x ∈ ws then some n else mapGet m x := by
  induction ws with
  | nil => intro m; simp
  | cons w ws ih =>
      intro m
      rw [List.foldl_cons, ih]
      by_cases hx : x ∈ ws
      · simp [hx]
      · by_cases hw : w = x
        · subst hw
          simp [hx, mapGet_mapSet_self]
        · have hxw : ¬ x = w := fun h => hw h.symm
          simp [hx, hxw, mapGet_mapSet_other m n hw]

/-- Folders that do not list `x` leave `x`'s mapping unchanged. -/
lemma mapGet_build_skip {x : String} : ∀ (l : List Folder),
    (∀ f ∈ l, x ∉ f.workflows) →
    ∀ m, mapGet (l.foldl
        (fun m₀ folder => folder.workflows.foldl (fun m₁ w => mapSet m₁ w folder.name) m₀) m) x
      = mapGet m x := by
  intro l
  induction l with
  | nil => intro _ m; simp
  | cons f l ih =>
      intro h m
      rw [List.foldl_cons, ih (fun g hg => h g (List.mem_cons_of_mem _ hg)),
        mapGet_foldl_mapSet]
      simp [h f (List.mem_cons_self _ _)]

/-- The lookup built by `buildWorkflowToFolder` maps `x` to the name of the
last folder listing `x`. -/
lemma mapGet_build_lastWins (l₁ : List Folder) (B : Folder) (post : List Folder)
    {x : String} (hB : x ∈ B.workflows) (hpost : ∀ f ∈ post, x ∉ f.workflows) :
    mapGet (buildWorkflowToFolder (l₁ ++ B :: post)) x = some B.name := by
  unfold buildWorkflowToFolder
  rw [List.foldl_append, List.foldl_cons, mapGet_build_skip post hpost,
    mapGet_foldl_mapSet]
  simp [hB]

/-- **C2**: when filename `x` is listed both in folder `A` (declared earlier)
and in folder `B` (declared later, and in no folder after `B`), every input
workflow whose filename is `x` lands in `B`'s bucket and not in `A`'s.
The spec's data-model invariant that folder names are non-empty display
labels is assumed (`hBname`); distinct buckets presuppose `A.name ≠ B.name`. -/
theorem groupWorkflowsByFolder_laterFolderWins
    (pre mid post : List Folder) (A B : Folder) (x : String)
    (W : List ApiWorkflow) (owner repo : String)
    (hA : x ∈ A.workflows) (hB : x ∈ B.workflows)
    (hpost : ∀ f ∈ post, x ∉ f.workflows)
    (hBname : B.name ≠ "") (hAB : A.name ≠ B.name) :
    ∀ w ∈ W, lastSegment w.path = x →
      inBucket (groupWorkflowsByFolder ⟨pre ++ A :: mid ++ B :: post⟩ W owner repo)
          (some B.name) (mkWorkflowData owner repo w)
      ∧ ¬ inBucket (groupWorkflowsByFolder ⟨pre ++ A :: mid ++ B :: post⟩ W owner repo)
          (some A.name) (mkWorkflowData owner repo w) := by
  have hsplit : pre ++ A :: mid ++ B :: post = (pre ++ A :: mid) ++ B :: post := by
    simp
  have hget : mapGet (buildWorkflowToFolder (pre ++ A :: mid ++ B :: post)) x = some B.name := by
    rw [hsplit]
    exact mapGet_build_lastWins (pre ++ A :: mid) B post hB hpost
  have hassign : assignedBucket (buildWorkflowToFolder (pre ++ A :: mid ++ B :: post)) x
      = some B.name := by
    unfold assignedBucket
    rw [hget]
    simp [hBname]
  have hsound : SoundAcc (buildWorkflowToFolder (pre ++ A :: mid ++ B :: post))
      (groupWorkflowsByFolder ⟨pre ++ A :: mid ++ B :: post⟩ W owner repo) :=
    soundAcc_foldl owner repo W ⟨[], []⟩
      ⟨fun _ _ hmem => absurd hmem (List.not_mem_nil _),
        fun _ hd => absurd hd (List.not_mem_nil _)⟩
  intro w hw hx
  constructor
  · have hplace := @foldl_places (buildWorkflowToFolder (pre ++ A :: mid ++ B :: post))
      owner repo W ⟨[], []⟩ w hw
    rw [hx, hassign] at hplace
    exact hplace
  · intro hcontra
    have heq := inBucket_assigned hsound hcontra
    rw [mkWorkflowData_filename, hx, hassign] at heq
    exact hAB (Option.some.injEq .. ▸ heq)

/-- Witness for **C2** at the spec's example: `x.yml` listed in folder `A`
(first) and folder `B` (second); the one input workflow with that filename
lands in `B`'s bucket and not in `A`'s. -/
theorem groupWorkflowsByFolder_laterFolderWins_witness :
    inBucket (groupWorkflowsByFolder ⟨[⟨"A", ["x.yml"]⟩, ⟨"B", ["x.yml"]⟩]⟩
        [⟨"CI", ".github/workflows/x.yml"⟩] "octo" "demo")
      (some "B") (mkWorkflowData "octo" "demo" ⟨"CI", ".github/workflows/x.yml"⟩)
    ∧ ¬ inBucket (groupWorkflowsByFolder ⟨[⟨"A", ["x.yml"]⟩, ⟨"B", ["x.yml"]⟩]⟩
        [⟨"CI", ".github/workflows/x.yml"⟩] "octo" "demo")
      (some "A") (mkWorkflowData "octo" "demo" ⟨"CI", ".github/workflows/x.yml"⟩) :=
  groupWorkflowsByFolder_laterFolderWins [] [] [] ⟨"A", ["x.yml"]⟩ ⟨"B", ["x.yml"]⟩
    "x.yml" [⟨"CI", ".github/workflows/x.yml"⟩] "octo" "demo"
    (by simp) (by simp) (by simp) (by decide) (by decide)
    ⟨"CI", ".github/workflows/x.yml"⟩ (by simp) (by decide)

/-! ## JSON values, JS truthiness, and the extension's key/value store
(`browser.storage.local` as consumed by `src/background/service-worker.js`) -/

/-- A JSON value as stored/fetched by the extension. -/
inductive Json where
  | null
  | bool (b : Bool)
  | num (n : Int)
  | str (s : String)
  | arr (xs : List Json)
  | obj (fields : List (String × Json))

/-- JS truthiness of a JSON value: `null`, `false`, `0` and `""` are falsy;
arrays and objects are always truthy. -/
def truthy : Json → Bool
  | Json.null => false
  | Json.bool b => b
  | Json.num n => n ≠ 0
  | Json.str s => s ≠ ""
  | Json.arr _ => true
  | Json.obj _ => true

/-- The persistent key/value store; `none` is an absent key (`undefined`). -/
def Store : Type := String → Option Json

/-! ## `fetchConfigFromBranches` (`src/background/service-worker.js`, 110–132) -/

/-- `CONFIG_FILE_PATH = '.github/actions-folders.json'`. -/
def CONFIG_FILE_PATH : String := ".github/actions-folders.json"

/-- `CACHE_DURATION_MS = 5 * 60 * 1000`. -/
def CACHE_DURATION_MS : Nat := 5 * 60 * 1000

/-- `buildRawGitHubUrl(owner, repo, branch)`. -/
def buildRawGitHubUrl (owner repo branch : String) : String :=
  "https://raw.githubusercontent.com/" ++ owner ++ "/" ++ repo ++ "/" ++ branch
    ++ "/" ++ CONFIG_FILE_PATH

/-- Outcome of one `fetch(url)` + `response.json()` attempt for a branch:
an HTTP-success response whose body parses (`ok (some c)`), an HTTP-success
response whose body fails to parse (`response.json()` throws: `ok none`),
a non-success HTTP status, or a thrown network error. -/
inductive BranchResp where
  | ok (parsed : Option Json)
  | httpError
  | netError

/-- Result of the branch loop: the first successfully parsed content (or
`none`, modelling the final `throw new Error('Config file not found…')`),
and how many fetch attempts were issued. -/
structure BranchFetchResult where
  content : Option Json
  attempts : Nat

/-- The `for (const branch of branches)` loop of `fetchConfigFromBranches`:
an HTTP-success response that parses short-circuits; a parse failure is
caught by the surrounding `try` and the next branch is tried, as is a
non-success status or a thrown fetch. -/
def fetchFromBranchList (net : String → BranchResp) (owner repo : String) :
    List String → BranchFetchResult
  | [] => { content := none, attempts := 0 }
  | b :: rest =>
      match net (buildRawGitHubUrl owner repo b) with
      | BranchResp.ok (some c) => { content := some c, attempts := 1 }
      | _ =>
          let r := fetchFromBranchList net owner repo rest
          { content := r.content, attempts := r.attempts + 1 }

/-- `fetchConfigFromBranches(owner, repo)`: `const branches = ['main', 'master']`.
The network is an oracle from URL to response. -/
def fetchConfigFromBranches (net : String → BranchResp) (owner repo : String) :
    BranchFetchResult :=
  fetchFromBranchList net owner repo ["main", "master"]

/-! ## `fetchConfigWithCache` (`src/background/service-worker.js`, 137–177) -/

/-- The response object sent back to the content script. -/
structure ConfigFetchResult where
  success : Bool
  content : Option Json
  fromCache : Bool

/-- One call of `fetchConfigWithCache`, with its effects made explicit. -/
structure CacheCallResult where
  result : ConfigFetchResult
  /-- The store after the call. -/
  store : Store
  /-- Whether `fetchConfigFromBranches` was invoked (a network fetch). -/
  didFetch : Bool
  /-- How many branch fetch attempts were issued. -/
  netAttempts : Nat
  /-- The `browser.storage.local.set` batches performed, in order. -/
  writes : List (List (String × Json))

/-- The `if (cachedContent && cachedTimestamp) { const age = Date.now() -
cachedTimestamp; if (age < CACHE_DURATION_MS) … }` guard: both stored values
truthy and the entry younger than the TTL. A non-numeric stored timestamp
makes `age` NaN, and `NaN < CACHE_DURATION_MS` is false. -/
def cacheValid (content ts : Option Json) (now : Int) : Bool :=
  match content, ts with
  | some c, some t =>
      truthy c && truthy t &&
        (match t with
         | Json.num tn => decide (now - tn < (CACHE_DURATION_MS : Int))
         | _ => false)
  | _, _ => false

/-- `fetchConfigWithCache(owner, repo)`: consult the cache keyed by
`config_{owner}_{repo}` / `…_timestamp`; on a valid entry return it tagged
`fromCache: true` with no network call; otherwise fetch from the branches
and, on success, write content and timestamp together in one
`browser.storage.local.set` call; on total failure return `success: false`
(the thrown not-found error is caught) with no write. `now` stands for
`Date.now()`. -/
def fetchConfigWithCache (store : Store) (net : String → BranchResp) (now : Int)
    (owner repo : String) : CacheCallResult :=
  let cacheKey := "config_" ++ owner ++ "_" ++ repo
  let cacheTimestampKey := cacheKey ++ "_timestamp"
  let cachedContent := store cacheKey
  let cachedTimestamp := store cacheTimestampKey
  if cacheValid cachedContent cachedTimestamp now then
    { result := { success := true, content := cachedContent, fromCache := true }
      store := store
      didFetch := false
      netAttempts := 0
      writes := [] }
  else
    let fr := fetchConfigFromBranches net owner repo
    match fr.content with
    | some c =>
        { result := { success := true, content := some c, fromCache := false }
          store := fun k =>
            if k = cacheKey then some c
            else if k = cacheTimestampKey then some (Json.num now)
            else store k
          didFetch := true
          netAttempts := fr.attempts
          writes := [[(cacheKey, c), (cacheTimestampKey, Json.num now)]] }
    | none =>
        { result := { success := false, content := none, fromCache := false }
          store := store
          didFetch := true
          netAttempts := fr.attempts
          writes := [] }

/-! ## Evaluation lemmas for the cache -/

lemma cacheValid_hit {c : Json} {t now : Int} (hc : truthy c = true) (ht : t ≠ 0)
    (hage : now - t < (CACHE_DURATION_MS : Int)) :
    cacheValid (some c) (some (Json.num t)) now = true := by
  have ht₂ : truthy (Json.num t) = true := by simp [truthy, ht]
  simp [cacheValid, hc, ht₂, hage]

lemma cacheValid_expired (content : Option Json) {t now : Int}
    (hage : (CACHE_DURATION_MS : Int) ≤ now - t) :
    cacheValid content (some (Json.num t)) now = false := by
  have hlt : ¬ (now - t < (CACHE_DURATION_MS : Int)) := by omega
  rcases content with _ | c
  · rfl
  · simp [cacheValid, hlt]

lemma fetchConfigWithCache_hit {store : Store} {net : String → BranchResp} {now : Int}
    {owner repo : String}
    (h : cacheValid (store ("config_" ++ owner ++ "_" ++ repo))
          (store ("config_" ++ owner ++ "_" ++ repo ++ "_timestamp")) now = true) :
    fetchConfigWithCache store net now owner repo
      = { result := { success := true,
                      content := store ("config_" ++ owner ++ "_" ++ repo),
                      fromCache := true }
          store := store, didFetch := false, netAttempts := 0, writes := [] } := by
  simp [fetchConfigWithCache, h]

lemma fetchConfigWithCache_fresh {store : Store} {net : String → BranchResp} {now : Int}
    {owner repo : String} {c : Json}
    (h : cacheValid (store ("config_" ++ owner ++ "_" ++ repo))
          (store ("config_" ++ owner ++ "_" ++ repo ++ "_timestamp")) now = false)
    (hc : (fetchConfigFromBranches net owner repo).content = some c) :
    fetchConfigWithCache store net now owner repo
      = { result := { success := true, content := some c, fromCache := false }
          store := fun k =>
            if k = "config_" ++ owner ++ "_" ++ repo then some c
            else if k = "config_" ++ owner ++ "_" ++ repo ++ "_timestamp" then
              some (Json.num now)
            else store k
          didFetch := true
          netAttempts := (fetchConfigFromBranches net owner repo).attempts
          writes := [[("config_" ++ owner ++ "_" ++ repo, c),
                      ("config_" ++ owner ++ "_" ++ repo ++ "_timestamp", Json.num now)]] } := by
  simp [fetchConfigWithCache, h, hc]

lemma fetchConfigWithCache_notFound {store : Store} {net : String → BranchResp} {now : Int}
    {owner repo : String}
    (h : cacheValid (store ("config_" ++ owner ++ "_" ++ repo))
          (store ("config_" ++ owner ++ "_" ++ repo ++ "_timestamp")) now = false)
    (hc : (fetchConfigFromBranches net owner repo).content = none) :
    fetchConfigWithCache store net now owner repo
      = { result := { success := false, content := none, fromCache := false }
          store := store, didFetch := true
          netAttempts := (fetchConfigFromBranches net owner repo).attempts, writes := [] } := by
  simp [fetchConfigWithCache, h, hc]

lemma fetchConfigWithCache_didFetch {store : Store} {net : String → BranchResp} {now : Int}
    {owner repo : String}
    (h : cacheValid (store ("config_" ++ owner ++ "_" ++ repo))
          (store ("config_" ++ owner ++ "_" ++ repo ++ "_timestamp")) now = false) :
    (fetchConfigWithCache store net now owner repo).didFetch = true := by
  rcases hc : (fetchConfigFromBranches net owner repo).content with _ | c
  · rw [fetchConfigWithCache_notFound h hc]
  · rw [fetchConfigWithCache_fresh h hc]

/-- The timestamp key never collides with the content key. -/
lemma tsKey_ne_cacheKey (s : String) : ¬ (s ++ "_timestamp" = s) := by
  intro h
  have hl := congrArg String.length h
  simp [String.length_append] at hl
  exact absurd hl (by decide)

/-- **C3**: with a truthy cached config and timestamp younger than the TTL
(300000 ms), `fetchConfigWithCache` returns the cached value tagged
`fromCache` and performs no network fetch; with an entry at least TTL old it
performs a fresh fetch. Consequently two fetches within one TTL window
invoke the network exactly once (the first call only), and a fetch after
the TTL elapses invokes it a second time. -/
theorem fetchConfigWithCache_ttl (net : String → BranchResp) (owner repo : String) :
    (∀ (store : Store) (c : Json) (t now : Int),
       store ("config_" ++ owner ++ "_" ++ repo) = some c → truthy c = true →
       store ("config_" ++ owner ++ "_" ++ repo ++ "_timestamp") = some (Json.num t) →
       t ≠ 0 → now - t < (CACHE_DURATION_MS : Int) →
       (fetchConfigWithCache store net now owner repo).result
           = { success := true, content := some c, fromCache := true }
       ∧ (fetchConfigWithCache store net now owner repo).didFetch = false
       ∧ (fetchConfigWithCache store net now owner repo).netAttempts = 0)
    ∧ (∀ (store : Store) (t now : Int),
       store ("config_" ++ owner ++ "_" ++ repo ++ "_timestamp") = some (Json.num t) →
       (CACHE_DURATION_MS : Int) ≤ now - t →
       (fetchConfigWithCache store net now owner repo).didFetch = true)
    ∧ (∀ (store₀ : Store) (c : Json) (now₁ now₂ now₃ : Int),
       store₀ ("config_" ++ owner ++ "_" ++ repo) = none →
       (fetchConfigFromBranches net owner repo).content = some c →
       truthy c = true → now₁ ≠ 0 →
       now₂ - now₁ < (CACHE_DURATION_MS : Int) →
       (CACHE_DURATION_MS : Int) ≤ now₃ - now₁ →
       (fetchConfigWithCache store₀ net now₁ owner repo).didFetch = true
       ∧ (fetchConfigWithCache (fetchConfigWithCache store₀ net now₁ owner repo).store
            net now₂ owner repo).didFetch = false
       ∧ (fetchConfigWithCache (fetchConfigWithCache store₀ net now₁ owner repo).store
            net now₂ owner repo).result.fromCache = true
       ∧ (fetchConfigWithCache (fetchConfigWithCache store₀ net now₁ owner repo).store
            net now₂ owner repo).result.content = some c
       ∧ (fetchConfigWithCache (fetchConfigWithCache store₀ net now₁ owner repo).store
            net now₃ owner repo).didFetch = true) := by
  refine ⟨?_, ?_, ?_⟩
  · intro store c t now hck htruthy htk ht hage
    have hv : cacheValid (store ("config_" ++ owner ++ "_" ++ repo))
        (store ("config_" ++ owner ++ "_" ++ repo ++ "_timestamp")) now = true := by
      rw [hck, htk]
      exact cacheValid_hit htruthy ht hage
    rw [fetchConfigWithCache_hit hv]
    exact ⟨by simp [hck], rfl, rfl⟩
  · intro store t now htk hage
    apply fetchConfigWithCache_didFetch
    rw [htk]
    exact cacheValid_expired _ hage
  · intro store₀ c now₁ now₂ now₃ hck hnet hc h₁ h₂ h₃
    have hv₀ : cacheValid (store₀ ("config_" ++ owner ++ "_" ++ repo))
        (store₀ ("config_" ++ owner ++ "_" ++ repo ++ "_timestamp")) now₁ = false := by
      rw [hck]; rfl
    have hfresh := fetchConfigWithCache_fresh hv₀ hnet
    have hsck : (fetchConfigWithCache store₀ net now₁ owner repo).store
        ("config_" ++ owner ++ "_" ++ repo) = some c := by
      rw [hfresh]; simp
    have hstk : (fetchConfigWithCache store₀ net now₁ owner repo).store
        ("config_" ++ owner ++ "_" ++ repo ++ "_timestamp") = some (Json.num now₁) := by
      rw [hfresh]
      simp [tsKey_ne_cacheKey ("config_" ++ owner ++ "_" ++ repo)]
    have hv₂ : cacheValid
        ((fetchConfigWithCache store₀ net now₁ owner repo).store
          ("config_" ++ owner ++ "_" ++ repo))
        ((fetchConfigWithCache store₀ net now₁ owner repo).store
          ("config_" ++ owner ++ "_" ++ repo ++ "_timestamp")) now₂ = true := by
      rw [hsck, hstk]
      exact cacheValid_hit hc h₁ h₂
    have hv₃ : cacheValid
        ((fetchConfigWithCache store₀ net now₁ owner repo).store
          ("config_" ++ owner ++ "_" ++ repo))
        ((fetchConfigWithCache store₀ net now₁ owner repo).store
          ("config_" ++ owner ++ "_" ++ repo ++ "_timestamp")) now₃ = false := by
      rw [hstk]
      exact cacheValid_expired _ h₃
    refine ⟨by rw [hfresh], ?_, ?_, ?_, fetchConfigWithCache_didFetch hv₃⟩
    · rw [fetchConfigWithCache_hit hv₂]
    · rw [fetchConfigWithCache_hit hv₂]
    · rw [fetchConfigWithCache_hit hv₂]
      simpa using hsck

/-- Witness for **C3**: empty store, network that answers on the first
branch; calls at t=1000 then t=2000 (inside the TTL window) then t=301000
(outside it) fetch, hit the cache, and fetch again respectively. -/
theorem fetchConfigWithCache_ttl_witness :
    (fetchConfigWithCache (fun _ => none)
        (fun _ => BranchResp.ok (some (Json.obj []))) 1000 "o" "r").didFetch = true
    ∧ (fetchConfigWithCache
        (fetchConfigWithCache (fun _ => none)
          (fun _ => BranchResp.ok (some (Json.obj []))) 1000 "o" "r").store
        (fun _ => BranchResp.ok (some (Json.obj []))) 2000 "o" "r").didFetch = false
    ∧ (fetchConfigWithCache
        (fetchConfigWithCache (fun _ => none)
          (fun _ => BranchResp.ok (some (Json.obj []))) 1000 "o" "r").store
        (fun _ => BranchResp.ok (some (Json.obj []))) 301000 "o" "r").didFetch = true := by
  have h := (fetchConfigWithCache_ttl (fun _ => BranchResp.ok (some (Json.obj []))) "o" "r").2.2
    (fun _ => none) (Json.obj []) 1000 2000 301000 rfl rfl rfl
    (by decide) (by decide) (by decide)
  exact ⟨h.1, h.2.1, h.2.2.2.2⟩

/-- **C4**: `fetchConfigFromBranches` tries `main` then `master`; the first
HTTP-success-and-parses attempt wins; a parse failure counts as that branch
failing and the next is tried; if the config exists only on the second
branch the returned content is the second branch's after exactly one failed
attempt; if every branch fails the overall cached config fetch reports
`success: false` rather than throwing. -/
theorem fetchConfigFromBranches_order (net : String → BranchResp) (owner repo : String) :
    (∀ c, net (buildRawGitHubUrl owner repo "main") = BranchResp.ok (some c) →
       fetchConfigFromBranches net owner repo = { content := some c, attempts := 1 })
    ∧ (∀ c, net (buildRawGitHubUrl owner repo "main") = BranchResp.ok none →
       net (buildRawGitHubUrl owner repo "master") = BranchResp.ok (some c) →
       fetchConfigFromBranches net owner repo = { content := some c, attempts := 2 })
    ∧ (∀ c₂, (∀ c, ¬ net (buildRawGitHubUrl owner repo "main") = BranchResp.ok (some c)) →
       net (buildRawGitHubUrl owner repo "master") = BranchResp.ok (some c₂) →
       fetchConfigFromBranches net owner repo = { content := some c₂, attempts := 2 })
    ∧ ((∀ c, ¬ net (buildRawGitHubUrl owner repo "main") = BranchResp.ok (some c)) →
       (∀ c, ¬ net (buildRawGitHubUrl owner repo "master") = BranchResp.ok (some c)) →
       (fetchConfigFromBranches net owner repo).content = none
       ∧ ∀ (store : Store) (now : Int),
           store ("config_" ++ owner ++ "_" ++ repo) = none →
           (fetchConfigWithCache store net now owner repo).result.success = false) := by
  have hmaster : ∀ (res : BranchFetchResult),
      (∀ c, ¬ net (buildRawGitHubUrl owner repo "master") = BranchResp.ok (some c)) →
      fetchFromBranchList net owner repo ["master"] = { content := none, attempts := 1 } := by
    intro _ hno
    rcases h2 : net (buildRawGitHubUrl owner repo "master") with p | _ | _
    · rcases p with _ | c
      · simp [fetchFromBranchList, h2]
      · exact absurd h2 (hno c)
    · simp [fetchFromBranchList, h2]
    · simp [fetchFromBranchList, h2]
  refine ⟨?_, ?_, ?_, ?_⟩
  · intro c h1
    simp [fetchConfigFromBranches, fetchFromBranchList, h1]
  · intro c h1 h2
    simp [fetchConfigFromBranches, fetchFromBranchList, h1, h2]
  · intro c₂ h1 h2
    rcases hm : net (buildRawGitHubUrl owner repo "main") with p | _ | _
    · rcases p with _ | c
      · simp [fetchConfigFromBranches, fetchFromBranchList, hm, h2]
      · exact absurd hm (h1 c)
    · simp [fetchConfigFromBranches, fetchFromBranchList, hm, h2]
    · simp [fetchConfigFromBranches, fetchFromBranchList, hm, h2]
  · intro h1 h2
    have hnone : (fetchConfigFromBranches net owner repo).content = none := by
      have htail := hmaster { content := none, attempts := 0 } h2
      rcases hm : net (buildRawGitHubUrl owner repo "main") with p | _ | _
      · rcases p with _ | c
        · simp [fetchConfigFromBranches, fetchFromBranchList, hm, htail]
        · exact absurd hm (h1 c)
      · simp [fetchConfigFromBranches, fetchFromBranchList, hm, htail]
      · simp [fetchConfigFromBranches, fetchFromBranchList, hm, htail]
    refine ⟨hnone, ?_⟩
    intro store now hck
    have hv : cacheValid (store ("config_" ++ owner ++ "_" ++ repo))
        (store ("config_" ++ owner ++ "_" ++ repo ++ "_timestamp")) now = false := by
      rw [hck]; rfl
    rw [fetchConfigWithCache_notFound hv hnone]

/-- Witness for **C4**: a network with a parse failure on `main` and the
config on `master` yields the master content after exactly one failed
attempt (two attempts in total). -/
theorem fetchConfigFromBranches_order_witness :
    fetchConfigFromBranches
        (fun url => if url = buildRawGitHubUrl "o" "r" "main" then BranchResp.ok none
                    else BranchResp.ok (some (Json.obj []))) "o" "r"
      = { content := some (Json.obj []), attempts := 2 } := by
  have h := (fetchConfigFromBranches_order
      (fun url => if url = buildRawGitHubUrl "o" "r" "main" then BranchResp.ok none
                  else BranchResp.ok (some (Json.obj []))) "o" "r").2.1
  apply h (Json.obj [])
  · simp
  · have hne : ¬ (buildRawGitHubUrl "o" "r" "master" = buildRawGitHubUrl "o" "r" "main") := by
      decide
    simp [hne]

/-- **C5**: `fetchConfigWithCache` performs exactly one cache write per
successful fresh fetch — the config value and its timestamp written together
in a single storage `set` batch — and performs zero cache writes (and leaves
the store untouched) on a cache hit and on total failure. -/
theorem fetchConfigWithCache_writeDiscipline (store : Store) (net : String → BranchResp)
    (now : Int) (owner repo : String) :
    ((fetchConfigWithCache store net now owner repo).result.fromCache = true →
       (fetchConfigWithCache store net now owner repo).writes = []
       ∧ (fetchConfigWithCache store net now owner repo).store = store)
    ∧ ((fetchConfigWithCache store net now owner repo).result.success = true →
       (fetchConfigWithCache store net now owner repo).result.fromCache = false →
       ∃ c, (fetchConfigWithCache store net now owner repo).result.content = some c
         ∧ (fetchConfigWithCache store net now owner repo).writes
             = [[("config_" ++ owner ++ "_" ++ repo, c),
                 ("config_" ++ owner ++ "_" ++ repo ++ "_timestamp", Json.num now)]])
    ∧ ((fetchConfigWithCache store net now owner repo).result.success = false →
       (fetchConfigWithCache store net now owner repo).writes = []
       ∧ (fetchConfigWithCache store net now owner repo).store = store)
    ∧ (fetchConfigWithCache store net now owner repo).writes.length ≤ 1 := by
  by_cases hv : cacheValid (store ("config_" ++ owner ++ "_" ++ repo))
      (store ("config_" ++ owner ++ "_" ++ repo ++ "_timestamp")) now = true
  · rw [fetchConfigWithCache_hit hv]
    exact ⟨fun _ => ⟨rfl, rfl⟩, fun _ hfc => absurd hfc (by simp),
      fun hs => absurd hs (by simp), by simp⟩
  · have hv₀ : cacheValid (store ("config_" ++ owner ++ "_" ++ repo))
        (store ("config_" ++ owner ++ "_" ++ repo ++ "_timestamp")) now = false := by
      simpa using hv
    rcases hc : (fetchConfigFromBranches net owner repo).content with _ | c
    · rw [fetchConfigWithCache_notFound hv₀ hc]
      exact ⟨fun hfc => absurd hfc (by simp), fun hs _ => absurd hs (by simp),
        fun _ => ⟨rfl, rfl⟩, by simp⟩
    · rw [fetchConfigWithCache_fresh hv₀ hc]
      exact ⟨fun hfc => absurd hfc (by simp), fun _ _ => ⟨c, rfl, rfl⟩,
        fun hs => absurd hs (by simp), by simp⟩

/-! ## `checkUserPermission` (`src/background/service-worker.js`, 236–285) -/

/-- `TOKEN_STORAGE_KEY = 'github_token'`. -/
def TOKEN_STORAGE_KEY : String := "github_token"

/-- `getToken()`: `result[TOKEN_STORAGE_KEY] || null` over
`browser.storage.sync` — any falsy stored value (absent, empty string, …)
becomes `null`. -/
def getToken (sync : Store) : Option Json :=
  match sync TOKEN_STORAGE_KEY with
  | some v => if truthy v then some v else none
  | none => none

/-- Outcome of the permissions-endpoint fetch: an HTTP-success response
whose parsed body carries `data.permission`, a non-success status, or a
thrown error. -/
inductive PermResp where
  | ok (permission : String)
  | httpError (status : Nat)
  | netError (msg : String)
deriving DecidableEq, Repr

/-- The response object of `checkUserPermission`, with an explicit record
of whether the network was contacted. -/
structure PermCheckResult where
  success : Bool
  hasWriteAccess : Option Bool
  permission : Option String
  reason : Option String
  error : Option String
  netCalled : Bool
deriving DecidableEq, Repr

/-- `checkUserPermission(owner, repo, username)`: without a token, return
`{success: false, reason: 'no_token'}` before any fetch; with one, an
HTTP-success response grants write access exactly for the permission levels
`['admin', 'write'].includes(data.permission)`. -/
def checkUserPermission (sync : Store) (resp : PermResp)
    (owner repo username : String) : PermCheckResult :=
  match getToken sync with
  | none =>
      { success := false, hasWriteAccess := none, permission := none
        reason := some "no_token", error := none, netCalled := false }
  | some _ =>
      match resp with
      | PermResp.ok p =>
          { success := true, hasWriteAccess := some (p == "admin" || p == "write")
            permission := some p, reason := none, error := none, netCalled := true }
      | PermResp.httpError s =>
          { success := false, hasWriteAccess := none, permission := none
            reason := none, error := some ("HTTP " ++ toString s), netCalled := true }
      | PermResp.netError m =>
          { success := false, hasWriteAccess := none, permission := none
            reason := none, error := some m, netCalled := true }

/-! ## `checkWriteAccessFromHTMLEndpoint`
(`src/content/services/permissions-service.js`, 239–271, and the identical
copy in `src/content/services/repo-detector.js`, 214–250) -/

/-- The request issued by the privileged-page probe. -/
structure HttpRequest where
  url : String
  method : String
  redirect : String
deriving DecidableEq, Repr

/-- `fetch(https://github.com/{owner}/{repo}/settings, {method: 'HEAD',
redirect: 'manual'})`. -/
def settingsRequest (owner repo : String) : HttpRequest :=
  { url := "https://github.com/" ++ owner ++ "/" ++ repo ++ "/settings"
    method := "HEAD", redirect := "manual" }

/-- Outcome of the header-only settings-page request: a status code (no
redirect followed), or a thrown network error. -/
inductive HeadResp where
  | status (code : Nat)
  | netError
deriving DecidableEq, Repr

/-- The status mapping of `checkWriteAccessFromHTMLEndpoint`: 200 ⇒ `true`;
301/302/303 ⇒ `false`; 404/403 ⇒ `false`; anything else, and a thrown
fetch, ⇒ `null`. -/
def checkWriteAccessFromHTMLEndpoint (resp : HeadResp) : Option Bool :=
  match resp with
  | HeadResp.status code =>
      if code = 200 then some true
      else if code = 301 ∨ code = 302 ∨ code = 303 then some false
      else if code = 404 ∨ code = 403 then some false
      else none
  | HeadResp.netError => none

/-! ## `extractWorkflowsFromDOM` and `fetchWorkflows`
(`src/content/services/messaging-service.js`, 98–179) -/

/-- One anchor found by
`nav[aria-label="Actions Workflows"] a[href*="/actions/workflows/"]`. -/
structure DomLink where
  text : String
  href : String
deriving DecidableEq, Repr

/-- One workflow object in API response format (the DOM fallback fabricates
the same fields the API returns). -/
structure DomWorkflow where
  name : String
  path : String
  state : String
  id : Nat
  node_id : String
  badge_url : String
  html_url : String
  url : String
deriving DecidableEq, Repr

/-- The literal of the regex `/\/actions\/workflows\/([^?]+)/`. -/
def workflowsLit : List Char := "/actions/workflows/".data

/-- Does the pattern occur right here (as a leading run of the text)? -/
def charsMatchAt : List Char → List Char → Bool
  | [], _ => true
  | _ :: _, [] => false
  | p :: ps, c :: cs => p == c && charsMatchAt ps cs

/-- `href.match(/\/actions\/workflows\/([^?]+)/)[1]`: the greedy capture at
the leftmost position where the literal is followed by at least one
non-`?` character; the engine retries at the next index when `[^?]+` has
nothing to consume. -/
def matchCapture : List Char → Option (List Char)
  | [] => none
  | c :: rest =>
      if charsMatchAt workflowsLit (c :: rest) then
        let cap := ((c :: rest).drop workflowsLit.length).takeWhile (fun x => !(x == '?'))
        if cap.isEmpty then matchCapture rest else some cap
      else matchCapture rest

/-- The body of the `workflowLinks.forEach` loop: when the href matches and
the capture is non-empty (`if (match && match[1])`), fabricate an
API-format workflow object; `id` is the running 1-based index. -/
def extractStep (acc : List DomWorkflow) (link : DomLink) : List DomWorkflow :=
  match matchCapture link.href.data with
  | some cap =>
      acc ++ [{ name := link.text.trim
                path := ".github/workflows/" ++ String.mk cap
                state := "active"
                id := acc.length + 1
                node_id := ""
                badge_url := ""
                html_url := "https://github.com" ++ link.href
                url := "" }]
  | none => acc

/-- The uniform response shape: the API path returns `fromDOM` absent
(falsy, modelled `false`); the DOM path sets `fromDOM: true`. -/
structure WorkflowsResult where
  success : Bool
  workflows : List DomWorkflow
  fromDOM : Bool
deriving DecidableEq, Repr

/-- `extractWorkflowsFromDOM()`: reads the rendered page's workflow links
(the list after the optional "show more" expansion has settled) and always
reports `{success: true, workflows, fromDOM: true}`. -/
def extractWorkflowsFromDOM (links : List DomLink) : WorkflowsResult :=
  { success := true
    workflows := links.foldl extractStep []
    fromDOM := true }

/-- Outcome of the `sendMessage({action: 'fetchWorkflows'})` round trip:
a response object, or a thrown runtime error. -/
inductive ApiOutcome where
  | response (resp : WorkflowsResult)
  | threw

/-- `fetchWorkflows(owner, repo)` of the messaging service: return the API
response when `response.success` is truthy, otherwise (failure response or
thrown error) fall back to DOM extraction. -/
def fetchWorkflows (api : ApiOutcome) (links : List DomLink) : WorkflowsResult :=
  match api with
  | ApiOutcome.response resp => if resp.success then resp else extractWorkflowsFromDOM links
  | ApiOutcome.threw => extractWorkflowsFromDOM links

/-! ## `getExtensionEnabled` (`src/content/services/storage-service.js`) -/

/-- `getExtensionEnabled(owner, repo)`: `result[key] !== false` with key
`enabled_{owner}_{repo}` — strict inequality, so only a stored boolean
`false` disables; an absent key defaults to enabled. -/
def getExtensionEnabled (store : Store) (owner repo : String) : Bool :=
  match store ("enabled_" ++ owner ++ "_" ++ repo) with
  | some (Json.bool false) => false
  | _ => true

/-- **C6**: the authenticated permission probe runs only with a configured
credential: with no (truthy) stored token it returns
`{success: false, reason: 'no_token'}` without contacting the network; with
a token, an HTTP-success response reports write access exactly when the
permission-level string is `admin` or `write`. -/
theorem checkUserPermission_tokenGate (sync : Store) (resp : PermResp)
    (owner repo username : String) :
    (getToken sync = none →
       checkUserPermission sync resp owner repo username
         = { success := false, hasWriteAccess := none, permission := none
             reason := some "no_token", error := none, netCalled := false })
    ∧ (∀ t, getToken sync = some t → ∀ p, resp = PermResp.ok p →
       (checkUserPermission sync resp owner repo username).success = true
       ∧ (checkUserPermission sync resp owner repo username).permission = some p
       ∧ ((checkUserPermission sync resp owner repo username).hasWriteAccess = some true
            ↔ (p = "admin" ∨ p = "write"))) := by
  constructor
  · intro h
    simp [checkUserPermission, h]
  · intro t ht p hp
    subst hp
    refine ⟨by simp [checkUserPermission, ht], by simp [checkUserPermission, ht], ?_⟩
    simp only [checkUserPermission, ht]
    constructor
    · intro h
      have hb : (p == "admin" || p == "write") = true := by
        simpa using h
      rcases Bool.or_eq_true_iff.mp hb with h1 | h1
      · exact Or.inl (eq_of_beq h1)
      · exact Or.inr (eq_of_beq h1)
    · intro h
      rcases h with h | h <;> subst h <;> simp

/-- Witness for **C6**: no stored token short-circuits to `no_token` with
no network call; with a token, permission `write` grants and `read` does
not. -/
theorem checkUserPermission_tokenGate_witness :
    checkUserPermission (fun _ => none) (PermResp.ok "write") "o" "r" "u"
      = { success := false, hasWriteAccess := none, permission := none
          reason := some "no_token", error := none, netCalled := false }
    ∧ (checkUserPermission (fun _ => some (Json.str "tok")) (PermResp.ok "write")
        "o" "r" "u").hasWriteAccess = some true
    ∧ (checkUserPermission (fun _ => some (Json.str "tok")) (PermResp.ok "read")
        "o" "r" "u").hasWriteAccess = some false := by
  refine ⟨(checkUserPermission_tokenGate (fun _ => none) (PermResp.ok "write")
      "o" "r" "u").1 rfl, ?_, ?_⟩
  · have h := ((checkUserPermission_tokenGate (fun _ => some (Json.str "tok"))
      (PermResp.ok "write") "o" "r" "u").2 (Json.str "tok") rfl "write" rfl).2.2
    exact h.mpr (Or.inr rfl)
  · rfl

/-- **C7**: the privileged-page probe issues a HEAD request to the settings
page without following redirects and maps 200 to a grant, the redirect
statuses 301/302/303 and the 403/404 statuses to a deny, and every other
status as well as a thrown fetch to inconclusive. -/
theorem checkWriteAccessFromHTMLEndpoint_statusMap (owner repo : String) :
    settingsRequest owner repo
      = { url := "https://github.com/" ++ owner ++ "/" ++ repo ++ "/settings"
          method := "HEAD", redirect := "manual" }
    ∧ checkWriteAccessFromHTMLEndpoint (HeadResp.status 200) = some true
    ∧ (∀ code, code = 301 ∨ code = 302 ∨ code = 303 →
        checkWriteAccessFromHTMLEndpoint (HeadResp.status code) = some false)
    ∧ (∀ code, code = 403 ∨ code = 404 →
        checkWriteAccessFromHTMLEndpoint (HeadResp.status code) = some false)
    ∧ (∀ code, ¬ code = 200 → ¬ (code = 301 ∨ code = 302 ∨ code = 303) →
        ¬ (code = 404 ∨ code = 403) →
        checkWriteAccessFromHTMLEndpoint (HeadResp.status code) = none)
    ∧ checkWriteAccessFromHTMLEndpoint HeadResp.netError = none := by
  refine ⟨rfl, rfl, ?_, ?_, ?_, rfl⟩
  · intro code h
    rcases h with h | h | h <;> subst h <;> rfl
  · intro code h
    rcases h with h | h <;> subst h <;> rfl
  · intro code h1 h2 h3
    simp [checkWriteAccessFromHTMLEndpoint, h1, h2, h3]

/-- Witness for **C7**: a 500 response is inconclusive. -/
theorem checkWriteAccessFromHTMLEndpoint_statusMap_witness :
    checkWriteAccessFromHTMLEndpoint (HeadResp.status 500) = none :=
  (checkWriteAccessFromHTMLEndpoint_statusMap "o" "r").2.2.2.2.1 500
    (by decide) (by decide) (by decide)

/-- **C8**: whenever the primary API workflow fetch fails — an unsuccessful
response or a thrown error — `fetchWorkflows` returns the DOM-extraction
result; that result always reports success with a possibly-empty workflow
list and carries `fromDOM: true`, while a successful API response is passed
through unchanged (its `fromDOM` field absent/falsy). -/
theorem fetchWorkflows_domFallback (links : List DomLink) :
    (∀ resp, resp.success = false →
       fetchWorkflows (ApiOutcome.response resp) links = extractWorkflowsFromDOM links)
    ∧ fetchWorkflows ApiOutcome.threw links = extractWorkflowsFromDOM links
    ∧ (extractWorkflowsFromDOM links).success = true
    ∧ (extractWorkflowsFromDOM links).fromDOM = true
    ∧ (extractWorkflowsFromDOM []).workflows = []
    ∧ (∀ resp, resp.success = true →
       fetchWorkflows (ApiOutcome.response resp) links = resp) := by
  refine ⟨?_, rfl, rfl, rfl, rfl, ?_⟩
  · intro resp h
    simp [fetchWorkflows, h]
  · intro resp h
    simp [fetchWorkflows, h]

/-- Witness for **C8**: a failed API response over an empty page yields the
marked, empty DOM result. -/
theorem fetchWorkflows_domFallback_witness :
    fetchWorkflows (ApiOutcome.response { success := false, workflows := [], fromDOM := false }) []
      = { success := true, workflows := [], fromDOM := true } :=
  (fetchWorkflows_domFallback []).1 { success := false, workflows := [], fromDOM := false } rfl

/-- **C10**: the per-repository folder view defaults to enabled —
`getExtensionEnabled` returns `true` whenever no flag is stored for the
`(owner, repo)` pair, and returns `false` exactly when the stored value is
the boolean `false`. -/
theorem getExtensionEnabled_defaultTrue (store : Store) (owner repo : String) :
    (store ("enabled_" ++ owner ++ "_" ++ repo) = none →
       getExtensionEnabled store owner repo = true)
    ∧ (getExtensionEnabled store owner repo = false ↔
       store ("enabled_" ++ owner ++ "_" ++ repo) = some (Json.bool false)) := by
  refine ⟨?_, ?_, ?_⟩
  · intro h
    simp [getExtensionEnabled, h]
  · intro h
    rcases hk : store ("enabled_" ++ owner ++ "_" ++ repo) with _ | v
    · simp [getExtensionEnabled, hk] at h
    · rcases v with _ | b | n | s | xs | fs
      · simp [getExtensionEnabled, hk] at h
      · rcases b with _ | _
        · rfl
        · simp [getExtensionEnabled, hk] at h
      · simp [getExtensionEnabled, hk] at h
      · simp [getExtensionEnabled, hk] at h
      · simp [getExtensionEnabled, hk] at h
      · simp [getExtensionEnabled, hk] at h
  · intro h
    simp [getExtensionEnabled, h]

/-- Witness for **C10**: a store with nothing for the repository defaults
to enabled; a stored `false` disables; a stored string does not disable. -/
theorem getExtensionEnabled_defaultTrue_witness :
    getExtensionEnabled (fun _ => none) "o" "r" = true
    ∧ getExtensionEnabled (fun _ => some (Json.bool false)) "o" "r" = false
    ∧ getExtensionEnabled (fun _ => some (Json.str "false")) "o" "r" = true :=
  ⟨(getExtensionEnabled_defaultTrue (fun _ => none) "o" "r").1 rfl, rfl, rfl⟩

end GithubFolders
